import Mathlib

set_option maxHeartbeats 1000000

/-! Shallow embedding of the Shipyard Engine edit-resolution pipeline:
ticket scope normalization, the SafeReplace substitution engine, the
generated-edit validator and the Sanity Rails gate, as executable Lean
definitions translated from the orchestrator source, together with
theorems about containment, substitution order and validation. -/

/-! ## String and list helpers modelling the JS primitives used by the source -/

/-- Whitespace predicate used by the model of JS String.prototype.trim
(the ASCII whitespace characters are the only ones that matter here). -/
def jsIsWs (c : Char) : Bool :=
  c == ' ' || c == '\t' || c == '\n' || c == '\r'

/-- Model of JS String.prototype.trim. -/
def jsTrim (s : String) : String :=
  String.mk (((s.data.dropWhile jsIsWs).reverse.dropWhile jsIsWs).reverse)

/-- Model of JS String.prototype.startsWith. -/
def jsStartsWith (s pre : String) : Bool :=
  pre.data.isPrefixOf s.data

/-- Model of JS String.prototype.endsWith. -/
def jsEndsWith (s suf : String) : Bool :=
  suf.data.isSuffixOf s.data

/-- Model of JS String.prototype.indexOf restricted to the first
occurrence: the first position of the list at which tok occurs (JS
returns -1 when there is none, modelled as none). Offsets are counted
in characters; JS counts UTF-16 units, which induces the same relative
order of first occurrences. -/
def firstIndexOf (tok : List Char) : List Char → Option Nat
  | [] => if tok.isEmpty then some 0 else none
  | c :: rest =>
    if tok.isPrefixOf (c :: rest) then some 0
    else (firstIndexOf tok rest).map (· + 1)

/-- Worker for the model of JS String.prototype.split with the non-empty
separator s :: ss: splits at leftmost, non-overlapping occurrences. The
fuel argument makes the recursion structural; every step consumes at
least one character, so fuel = length of the list is always enough (the
fuel-exhausted base case is never reached from listSplitOn). -/
def splitAux (s : Char) (ss : List Char) : Nat → List Char → List Char → List (List Char)
  | _, [], acc => [acc.reverse]
  | 0, l, acc => [acc.reverse ++ l]
  | fuel + 1, c :: rest, acc =>
    if (s :: ss).isPrefixOf (c :: rest) then
      acc.reverse :: splitAux s ss fuel (rest.drop ss.length) []
    else
      splitAux s ss fuel rest (c :: acc)

/-- Split of a character list on a non-empty separator ([] is handled by
the caller jsSplit). -/
def listSplitOn (sep l : List Char) : List (List Char) :=
  match sep with
  | [] => [l]
  | s :: ss => splitAux s ss l.length l []

/-- Model of JS String.prototype.split, including the empty-separator
case, which splits into single characters (and maps "" to []). -/
def jsSplit (content sep : String) : List String :=
  if sep.data.isEmpty then content.data.map (fun c => String.mk [c])
  else (listSplitOn sep.data content.data).map String.mk

/-! ## Model of node path.posix.normalize -/

/-- Segment-resolution loop of node path.posix.normalize: drops empty and
"." segments, resolves ".." against the accumulated (reversed) segment
stack, and keeps unresolvable ".." segments only for relative paths. -/
def normSegs (isAbs : Bool) : List (List Char) → List (List Char) → List (List Char)
  | acc, [] => acc
  | acc, s :: rest =>
    if s = [] ∨ s = ['.'] then normSegs isAbs acc rest
    else if s = ['.', '.'] then
      match acc with
      | [] => normSegs isAbs (if isAbs then [] else [['.', '.']]) rest
      | t :: acctail =>
        if t = ['.', '.'] then normSegs isAbs (['.', '.'] :: acc) rest
        else normSegs isAbs acctail rest
    else normSegs isAbs (s :: acc) rest

/-- Model of node path.posix.normalize: resolve "." and ".." segments,
collapse repeated separators, preserve a trailing separator, return "."
for an empty result ("/" for an absolute one). -/
def posixNormalize (p : String) : String :=
  if p.data.isEmpty then "."
  else
    let isAbs := jsStartsWith p "/"
    let trail := jsEndsWith p "/"
    let core := (normSegs isAbs [] (listSplitOn ['/'] p.data)).reverse
    if core.isEmpty then
      if isAbs then "/" else if trail then "./" else "."
    else
      let joined := List.intercalate ['/'] core
      let withTrail := if trail then joined ++ ['/'] else joined
      String.mk (if isAbs then '/' :: withTrail else withTrail)

/-- Strip a single leading "./" (model of .replace with the /^\.\//
pattern). -/
def stripDotSlash (s : String) : String :=
  if jsStartsWith s "./" then String.mk (s.data.drop 2) else s

/-- Strip all trailing slashes (model of .replace with the /\/+$/
pattern). -/
def stripTrailingSlashes (s : String) : String :=
  String.mk ((s.data.reverse.dropWhile (fun c => c == '/')).reverse)

/-! ## UTF-8 and base64 models -/

/-- UTF-8 encoding of one scalar value. -/
def charUtf8Bytes (c : Char) : List Nat :=
  let n := c.toNat
  if n < 128 then [n]
  else if n < 2048 then [192 + n / 64, 128 + n % 64]
  else if n < 65536 then [224 + n / 4096, 128 + n / 64 % 64, 128 + n % 64]
  else [240 + n / 262144, 128 + n / 4096 % 64, 128 + n / 64 % 64, 128 + n % 64]

/-- Model of Buffer.from(text, "utf8"): the UTF-8 bytes of a string. -/
def utf8Bytes (s : String) : List Nat :=
  (s.data.map charUtf8Bytes).flatten

/-- Model of Buffer.byteLength(text, "utf8"). -/
def utf8Len (s : String) : Nat :=
  (utf8Bytes s).length

/-- Continuation-byte test used by the UTF-8 decoder model. -/
def isCont (b : Nat) : Bool :=
  if 128 ≤ b ∧ b < 192 then true else false

/-- Fuel-indexed UTF-8 decoder worker; the fuel bounds the number of
decoded characters, so fuel = byte-list length is always sufficient.
Invalid bytes decode to U+FFFD; a truncated trailing sequence decodes
to a single U+FFFD (not exercised by the theorems below). -/
def utf8DecodeAux : Nat → List Nat → List Char
  | 0, _ => []
  | _ + 1, [] => []
  | fuel + 1, b :: rest =>
    if b < 128 then Char.ofNat b :: utf8DecodeAux fuel rest
    else if b < 194 then Char.ofNat 65533 :: utf8DecodeAux fuel rest
    else if b < 224 then
      match rest with
      | b2 :: rest2 =>
        if isCont b2 then Char.ofNat ((b - 192) * 64 + (b2 - 128)) :: utf8DecodeAux fuel rest2
        else Char.ofNat 65533 :: utf8DecodeAux fuel rest
      | [] => [Char.ofNat 65533]
    else if b < 240 then
      match rest with
      | b2 :: b3 :: rest3 =>
        if isCont b2 && isCont b3 then
          let v := (b - 224) * 4096 + (b2 - 128) * 64 + (b3 - 128)
          (if 55296 ≤ v ∧ v ≤ 57343 then Char.ofNat 65533 else Char.ofNat v) :: utf8DecodeAux fuel rest3
        else Char.ofNat 65533 :: utf8DecodeAux fuel rest
      | _ => [Char.ofNat 65533]
    else if b < 245 then
      match rest with
      | b2 :: b3 :: b4 :: rest4 =>
        if isCont b2 && isCont b3 && isCont b4 then
          Char.ofNat ((b - 240) * 262144 + (b2 - 128) * 4096 + (b3 - 128) * 64 + (b4 - 128)) :: utf8DecodeAux fuel rest4
        else Char.ofNat 65533 :: utf8DecodeAux fuel rest
      | _ => [Char.ofNat 65533]
    else Char.ofNat 65533 :: utf8DecodeAux fuel rest

/-- Model of Buffer.prototype.toString("utf8"). -/
def bytesToString (bs : List Nat) : String :=
  String.mk (utf8DecodeAux bs.length bs)

/-- Base64 alphabet value of a character, none for characters outside the
alphabet (node also accepts the URL-safe variants - and _; = has no
value and is skipped like any other non-alphabet character). -/
def b64Val (c : Char) : Option Nat :=
  if 'A' ≤ c ∧ c ≤ 'Z' then some (c.toNat - 65)
  else if 'a' ≤ c ∧ c ≤ 'z' then some (c.toNat - 97 + 26)
  else if '0' ≤ c ∧ c ≤ '9' then some (c.toNat - 48 + 52)
  else if c = '+' ∨ c = '-' then some 62
  else if c = '/' ∨ c = '_' then some 63
  else none

/-- Regroup base64 sextets into bytes: each group of 4 sextets gives 3
bytes, a final group of 3 gives 2, of 2 gives 1, of 1 gives 0. -/
def sextetsToBytes : List Nat → List Nat
  | a :: b :: c :: d :: rest =>
    (a * 4 + b / 16) :: (b % 16 * 16 + c / 4) :: (c % 4 * 64 + d) :: sextetsToBytes rest
  | [a, b, c] => [a * 4 + b / 16, b % 16 * 16 + c / 4]
  | [a, b] => [a * 4 + b / 16]
  | _ => []

/-- Model of Buffer.from(str, "base64"): node's forgiving decoder skips
characters outside the base64 alphabet and never fails. -/
def base64DecodeForgiving (s : String) : List Nat :=
  sextetsToBytes (s.data.filterMap b64Val)

/-- Base64 alphabet indexed by sextet value. -/
def b64Chars : List Char :=
  "ABCDEFGHIJKLMNOPQRSTUVWXYZabcdefghijklmnopqrstuvwxyz0123456789+/".data

def b64Char (n : Nat) : Char := b64Chars.getD n '?'

/-- Model of Buffer.prototype.toString("base64"). -/
def base64EncodeBytes : List Nat → List Char
  | a :: b :: c :: rest =>
    b64Char (a / 4) :: b64Char (a % 4 * 16 + b / 16) :: b64Char (b % 16 * 4 + c / 64) ::
      b64Char (c % 64) :: base64EncodeBytes rest
  | [a, b] => [b64Char (a / 4), b64Char (a % 4 * 16 + b / 16), b64Char (b % 16 * 4), '=']
  | [a] => [b64Char (a / 4), b64Char (a % 4 * 16), '=', '=']
  | [] => []

def base64Encode (bs : List Nat) : String := String.mk (base64EncodeBytes bs)

/-- Strict RFC 4648 base64 validity. This states what "valid base64"
means in the specification; the decoder above is the code's actual,
forgiving behaviour. -/
def isValidBase64 (s : String) : Bool :=
  let core := s.data.takeWhile (fun c => (b64Val c).isSome && !(c == '-') && !(c == '_'))
  let pad := s.data.drop core.length
  if s.data.length % 4 = 0 ∧ pad.all (fun c => c == '=') ∧ pad.length ≤ 2 then true else false

/-! ## Data model -/

/-- Scope file fetched once per run from the base revision. -/
structure ScopeFile where
  path : String
  content : String
  sha : String
  deriving Repr, DecidableEq

/-- One replacement rule of a SafeReplace directive. The optional fields
model the untyped JS object shape: none models an absent field (or one
whose value fails the typeof check in the source). -/
structure ReplacementRule where
  find : Option String := none
  find_any : Option (List String) := none
  replace : Option String := none
  deriving Repr, DecidableEq

/-- Color-preset macro specification. -/
structure ColorPreset where
  target : Option String := none
  kinds : Option (List String) := none
  shades : Option (List String) := none
  deriving Repr, DecidableEq

/-- One entry of ticket.safe_replace. -/
structure ReplaceEntry where
  path : Option String := none
  replacements : Option (List ReplacementRule) := none
  color_preset : Option ColorPreset := none
  deriving Repr, DecidableEq

/-- The fields of a parsed ticket that the edit-resolution pipeline
reads. -/
structure Ticket where
  title : String := ""
  scope : List String := []
  safe_replace : Option (List ReplaceEntry) := none
  deriving Repr, DecidableEq

/-- Entry of the {path, contents_base64} edit set produced by the model
response or by the SafeReplace engine. -/
structure ModelFileEntry where
  path : String
  contents_base64 : String
  deriving Repr, DecidableEq

/-- Validated candidate edit, the output shape of validateModelFiles. -/
structure CandidateFile where
  path : String
  contents : String
  base64 : String
  deriving Repr, DecidableEq

def MAX_FILES : Nat := 5

def MAX_FILE_SIZE : Nat := 200 * 1024

def COLOR_PRESET_COLORS : List String := ["red", "orange", "pink", "purple", "green"]

def COLOR_PRESET_KINDS : List String :=
  ["text", "hover:text", "bg", "hover:bg", "active:bg", "focus-visible:ring"]

def COLOR_PRESET_SHADES : List String := ["500", "600", "700"]

/-- Left-to-right map that stops at the first error, modelling a JS
Array.prototype.map (or for-loop) whose body can throw. -/
def mapExcept {α β : Type} (f : α → Except String β) : List α → Except String (List β)
  | [] => .ok []
  | x :: xs =>
    match f x with
    | .error e => .error e
    | .ok y =>
      match mapExcept f xs with
      | .error e => .error e
      | .ok ys => .ok (y :: ys)

/-! ## Scope containment -/

/-- Containment test against a single scope entry, exactly as written in
both validateModelFiles and safeReplace: a directory entry (trailing
slash) admits every path that starts with it; a file entry admits the
exact path or any path that starts with the entry plus "/". -/
def scopeEntryAdmits (scopeEntry normalizedPath : String) : Bool :=
  if jsEndsWith scopeEntry "/" then jsStartsWith normalizedPath scopeEntry
  else normalizedPath == scopeEntry || jsStartsWith normalizedPath (scopeEntry ++ "/")

/-- Containment predicate shared by the generated-edit validator and the
SafeReplace engine (the .some over normalizedScope in the source). -/
def isWithinScope (normalizedScope : List String) (normalizedPath : String) : Bool :=
  normalizedScope.any (fun e => scopeEntryAdmits e normalizedPath)

/-- Re-mapping of the scope list as written in the source; the branches
both return the entry unchanged. -/
def normalizeScopeList (scope : List String) : List String :=
  scope.map (fun p => if jsEndsWith p "/" then p else p)

/-- Containment predicate as the specification states it: a path is in
scope iff it exactly equals a scope entry, or, for a directory-marked
entry, it is a proper descendant of that entry's prefix. Modelled from
the spec for comparison with the code predicate isWithinScope. -/
def inScopeClaim (scope : List String) (path : String) : Bool :=
  scope.any (fun e => path == e || (jsEndsWith e "/" && jsStartsWith path e && !(path == e)))

/-! ## Ticket scope parsing (the scope-normalization step of parseTicket) -/

/-- Embedding of the per-entry scope normalization inside parseTicket:
trim, record the directory marker, strip trailing slashes for
directories, posix-normalize, reject a leading "../", strip a leading
"./", re-attach the directory marker. -/
def normalizeScopeEntry (entry : String) : Except String String :=
  if (jsTrim entry).data.isEmpty then
    .error "Ticket scope entries must be non-empty strings."
  else
    let trimmed := jsTrim entry
    let isDirectory := jsEndsWith trimmed "/"
    let normalized := posixNormalize (if isDirectory then stripTrailingSlashes trimmed else trimmed)
    if jsStartsWith normalized "../" then
      .error ("Scope path escapes repository: " ++ entry)
    else
      let finalPath := stripDotSlash normalized
      .ok (if isDirectory then finalPath ++ "/" else finalPath)

/-- Embedding of the scope checks of parseTicket: the scope must be a
non-empty array and every entry must normalize successfully. -/
def parseTicketScope (scope : List String) : Except String (List String) :=
  if scope.length = 0 then .error "Ticket scope must be a non-empty array."
  else mapExcept normalizeScopeEntry scope

/-- Does any slash-separated component of the path equal ".."? Used to
state the traversal-free invariant of the specification. -/
def hasDotDotComponent (p : String) : Bool :=
  (listSplitOn ['/'] p.data).any (fun seg => seg == ['.', '.'])

/-! ## Generated-edit validator -/

/-- Embedding of validateModelFiles: count bounds, path normalization and
escape check, scope containment, base64 decode (the source wraps
Buffer.from in try/catch, but that call never throws for a string
input, so the decode step is total), emptiness and size bounds. -/
def validateModelFiles (modelFiles : List ModelFileEntry) (scope : List String) :
    Except String (List CandidateFile) :=
  if modelFiles.length = 0 then
    .error "JSON response must include at least one file."
  else if modelFiles.length > MAX_FILES then
    .error ("Refusing to modify more than " ++ toString MAX_FILES ++ " files.")
  else
    mapExcept (fun file =>
      let normalizedPath := posixNormalize (stripDotSlash file.path)
      if jsStartsWith normalizedPath "../" then
        .error ("File path escapes repository: " ++ file.path)
      else if !(isWithinScope (normalizeScopeList scope) normalizedPath) then
        .error ("Model attempted to modify path outside scope: " ++ file.path)
      else
        let buffer := base64DecodeForgiving file.contents_base64
        if buffer.length = 0 then
          .error ("Decoded contents empty for " ++ file.path ++ ".")
        else if buffer.length > MAX_FILE_SIZE then
          .error ("Decoded contents exceed " ++ toString MAX_FILE_SIZE ++ " bytes for " ++ file.path ++ ".")
        else
          .ok { path := normalizedPath, contents := bytesToString buffer,
                base64 := file.contents_base64 }) modelFiles

/-! ## Color preset expansion -/

/-- Model of Array.from(new Set(xs)): deduplicate keeping first
occurrences. -/
def dedupFirstAux (seen : List String) : List String → List String
  | [] => []
  | x :: xs =>
    if seen.contains x then dedupFirstAux seen xs
    else x :: dedupFirstAux (x :: seen) xs

def dedupFirst (xs : List String) : List String := dedupFirstAux [] xs

/-- Rule produced for one (kind, shade) pair of a color preset: find_any
maps every palette color through the kind-color-shade template (the
target is not excluded, only the JS Set deduplication is applied) and
replace is the target token. -/
def presetRule (kind target shade : String) : ReplacementRule :=
  { find := none,
    find_any := some (dedupFirst (COLOR_PRESET_COLORS.map
      (fun color => kind ++ "-" ++ color ++ "-" ++ shade))),
    replace := some (kind ++ "-" ++ target ++ "-" ++ shade) }

/-- Body of the inner (shade) loop of buildColorPresetReplacements. -/
def presetShadeStep (kind target rawShade : String) : Except String ReplacementRule :=
  let shade := jsTrim rawShade
  if !(COLOR_PRESET_SHADES.contains shade) then
    .error ("color_preset shades must be within: " ++ String.intercalate ", " COLOR_PRESET_SHADES)
  else .ok (presetRule kind target shade)

/-- Body of the outer (kind) loop of buildColorPresetReplacements. -/
def presetKindStep (target : String) (shades : List String) (rawKind : String) :
    Except String (List ReplacementRule) :=
  let kind := jsTrim rawKind
  if !(COLOR_PRESET_KINDS.contains kind) then
    .error ("color_preset kind must be one of: " ++ String.intercalate ", " COLOR_PRESET_KINDS)
  else mapExcept (presetShadeStep kind target) shades

/-- Embedding of buildColorPresetReplacements: validate the target color,
default kinds to [text] and shades to [500], and produce one rule per
(kind, shade) pair via the nested loops above. -/
def buildColorPresetReplacements (preset : Option ColorPreset) :
    Except String (List ReplacementRule) :=
  match preset with
  | none => .ok []
  | some p =>
    let target := jsTrim (p.target.getD "")
    if target.data.isEmpty then
      .error "color_preset requires a target color."
    else if !(COLOR_PRESET_COLORS.contains target) then
      .error ("color_preset target must be one of: " ++ String.intercalate ", " COLOR_PRESET_COLORS)
    else
      let kinds := match p.kinds with | some (k :: ks) => k :: ks | _ => ["text"]
      let shades := match p.shades with | some (s :: ss) => s :: ss | _ => ["500"]
      match mapExcept (presetKindStep target shades) kinds with
      | .error e => .error e
      | .ok ruleLists => .ok ruleLists.flatten

/-- Embedding of one applyColorPresets step: keep entries that already
carry a non-empty replacements list or no color_preset; otherwise expand
the preset and attach the generated rules when non-empty. -/
def applyColorPresetEntry (entry : ReplaceEntry) : Except String ReplaceEntry :=
  match entry.replacements with
  | some (_ :: _) => .ok entry
  | _ =>
    match entry.color_preset with
    | none => .ok entry
    | some preset =>
      match buildColorPresetReplacements (some preset) with
      | .error e => .error e
      | .ok generated =>
        if generated.isEmpty then .ok entry
        else .ok { entry with replacements := some generated }

def applyColorPresets (entries : List ReplaceEntry) : Except String (List ReplaceEntry) :=
  mapExcept applyColorPresetEntry entries

/-! ## SafeReplace engine -/

/-- Scan of the find_any token list keeping the token with the strictly
lowest first-occurrence offset; a tie keeps the earlier token because
the comparison in the source is strict. -/
def chooseAux (content : String) : List String → Option (String × Nat) → Option (String × Nat)
  | [], best => best
  | t :: rest, best =>
    match firstIndexOf t.data content.data, best with
    | none, _ => chooseAux content rest best
    | some i, none => chooseAux content rest (some (t, i))
    | some i, some (t0, i0) =>
      if i < i0 then chooseAux content rest (some (t, i))
      else chooseAux content rest (some (t0, i0))

def chooseToken (content : String) (tokens : List String) : Option (String × Nat) :=
  chooseAux content tokens none

/-- Embedding of one replacement-rule application inside safeReplace:
returns the new content and whether this rule substituted anything. -/
def applyRule (content : String) (r : ReplacementRule) : Except String (String × Bool) :=
  match r.replace with
  | none => .error "SafeReplace replacements require a replace string."
  | some rep =>
    match r.find with
    | some f =>
      let segments := jsSplit content f
      if segments.length = 1 then .ok (content, false)
      else .ok (String.intercalate rep segments, decide (1 < segments.length))
    | none =>
      match r.find_any with
      | none => .error "SafeReplace replacements require either find or find_any."
      | some rawTokens =>
        let tokenList := (rawTokens.map jsTrim).filter (fun t => !t.data.isEmpty)
        if tokenList.length = 0 then
          .error "SafeReplace replacements require non-empty find_any strings."
        else
          match chooseToken content tokenList with
          | none => .ok (content, false)
          | some (tok, _) =>
            let segments := jsSplit content tok
            .ok (String.intercalate rep segments, decide (1 < segments.length))

/-- Sequential, in-order application of a directive entry's rules, each
rule operating on the previous rule's output; the boolean accumulates
whether any rule substituted. -/
def applyRules : List ReplacementRule → String → Bool → Except String (String × Bool)
  | [], content, modified => .ok (content, modified)
  | r :: rs, content, modified =>
    match applyRule content r with
    | .error e => .error e
    | .ok (content2, m) => applyRules rs content2 (modified || m)

/-- Lookup in the JS Map built from scopeFiles keyed by normalized path;
a JS Map keeps the last binding for a repeated key. -/
def scopeLookup (scopeFiles : List ScopeFile) (key : String) : Option ScopeFile :=
  (scopeFiles.filter (fun f => posixNormalize f.path == key)).getLast?

/-- Embedding of one iteration of the safeReplace directive loop: path
presence and escape checks, scope containment, scope-file lookup,
sequential rule application, and the emit decision (some = a changed
file, none = the directive contributed nothing). -/
def processEntry (normalizedScope : List String) (scopeFiles : List ScopeFile)
    (entry : ReplaceEntry) : Except String (Option ModelFileEntry) :=
  match entry.path with
  | none => .error "SafeReplace entries require a path string."
  | some p =>
    let normalizedPath := posixNormalize (stripDotSlash p)
    if jsStartsWith normalizedPath "../" then
      .error ("SafeReplace path escapes repository: " ++ p)
    else if !(isWithinScope normalizedScope normalizedPath) then
      .error ("SafeReplace path outside scope: " ++ p)
    else
      match scopeLookup scopeFiles normalizedPath with
      | none => .error ("SafeReplace path not found in scope files: " ++ p)
      | some scopeFile =>
        match entry.replacements with
        | none => .ok none
        | some rules =>
          if rules.length = 0 then .ok none
          else
            match applyRules rules scopeFile.content false with
            | .error e => .error e
            | .ok (content, modified) =>
              if modified && !(content == scopeFile.content) then
                .ok (some { path := normalizedPath,
                            contents_base64 := base64Encode (utf8Bytes content) })
              else .ok none

/-- Collection phase of safeReplace: the presence check, color-preset
expansion, and the directive loop gathering the changed files. -/
def collectReplaceFiles (ticket : Ticket) (scopeFiles : List ScopeFile) :
    Except String (List ModelFileEntry) :=
  let replacements := ticket.safe_replace.getD []
  if replacements.length = 0 then
    .error "SafeReplace requires at least one replacement entry."
  else
    match applyColorPresets replacements with
    | .error e => .error e
    | .ok expanded =>
      match mapExcept (processEntry (normalizeScopeList ticket.scope) scopeFiles) expanded with
      | .error e => .error e
      | .ok produced => .ok (produced.filterMap id)

/-- Embedding of safeReplace: an empty collected edit set is returned
directly (the early-exit signal), a non-empty one is passed through the
same validateModelFiles as the generative path. -/
def safeReplace (ticket : Ticket) (scopeFiles : List ScopeFile) :
    Except String (List CandidateFile) :=
  match collectReplaceFiles ticket scopeFiles with
  | .error e => .error e
  | .ok files =>
    if files.length = 0 then .ok []
    else validateModelFiles files ticket.scope

/-! ## Sanity Rails -/

/-- Character class of the SanityRails denylist regex (C0 controls minus
tab, newline, carriage return, plus DEL and U+FFFD). -/
def sanityInvalidChar (c : Char) : Bool :=
  if c.toNat ≤ 8 ∨ c.toNat = 11 ∨ c.toNat = 12 ∨ (14 ≤ c.toNat ∧ c.toNat ≤ 31)
      ∨ c.toNat = 127 ∨ c.toNat = 65533 then true else false

def ROOT_LAYOUT_EXPORT_ANCHORS : List String :=
  ["export default function RootLayout(", "export default RootLayout"]

def NOW_PLAYING_EXPORT_ANCHORS : List String :=
  ["export default function NowPlaying", "export default NowPlaying",
   "export default memo(NowPlaying)"]

/-- Model of JS String.prototype.includes. -/
def jsIncludes (s sub : String) : Bool :=
  (firstIndexOf sub.data s.data).isSome

/-- Size gate of runSanityRails, exactly as written there: the byte
length must be nonzero and at most the literal 200000. -/
def sanitySizeOk (text : String) : Bool :=
  if utf8Len text = 0 ∨ 200000 < utf8Len text then false else true

/-- Per-file check of runSanityRails: size gate, control-character gate,
and the path-specific export-anchor assertions. -/
def sanityCheckFile (f : CandidateFile) : Bool :=
  if sanitySizeOk f.contents = false then false
  else if f.contents.data.any sanityInvalidChar then false
  else if jsEndsWith f.path "src/app/layout.tsx"
      && !(ROOT_LAYOUT_EXPORT_ANCHORS.any (fun a => jsIncludes f.contents a)) then false
  else if jsEndsWith f.path "src/app/components/NowPlaying.tsx"
      && !(NOW_PLAYING_EXPORT_ANCHORS.any (fun a => jsIncludes f.contents a)) then false
  else true

/-- Embedding of runSanityRails: every file must pass every check; any
violation aborts with the single SanityRails failure error. -/
def runSanityRails : List CandidateFile → Except String Unit
  | [] => .ok ()
  | f :: rest =>
    if sanityCheckFile f then runSanityRails rest
    else .error "SanityRails failure"

/-! ## Run pipeline (the edit-resolution portion of run) -/

/-- Terminal outcome of one run: an early exit with no commit, or a
validated edit set handed to the commit collaborator. -/
inductive RunOutcome where
  | earlyExit : RunOutcome
  | committed : List CandidateFile → RunOutcome
  deriving Repr, DecidableEq

/-- Sanity rails stage of run (skippable by the strict flag) followed by
the hand-off to the commit collaborator. -/
def railsAndCommit (verifyStrict : Bool) (modelFiles : List CandidateFile) :
    Except String RunOutcome :=
  if verifyStrict then
    match runSanityRails modelFiles with
    | .error e => .error e
    | .ok _ => .ok (RunOutcome.committed modelFiles)
  else .ok (RunOutcome.committed modelFiles)

/-- Embedding of the edit-resolution portion of run(): dispatch on the
ticket shape (non-empty safe_replace means the deterministic path), the
early exit when SafeReplace changed nothing, then rails and commit.
llmFiles stands for the external generative collaborator callLLM. -/
def runPipeline (ticket : Ticket) (scopeFiles : List ScopeFile) (verifyStrict : Bool)
    (llmFiles : Except String (List CandidateFile)) : Except String RunOutcome :=
  match ticket.safe_replace with
  | some sr =>
    if 0 < sr.length then
      match safeReplace ticket scopeFiles with
      | .error e => .error e
      | .ok modelFiles =>
        if modelFiles.length = 0 then .ok RunOutcome.earlyExit
        else railsAndCommit verifyStrict modelFiles
    else
      match llmFiles with
      | .error e => .error e
      | .ok modelFiles => railsAndCommit verifyStrict modelFiles
  | none =>
    match llmFiles with
    | .error e => .error e
    | .ok modelFiles => railsAndCommit verifyStrict modelFiles

/-! ## Lemmas about the split and index models -/

theorem splitAux_ne_nil (s : Char) (ss : List Char) :
    ∀ (fuel : Nat) (l acc : List Char), splitAux s ss fuel l acc ≠ [] := by
  intro fuel
  induction fuel with
  | zero =>
    intro l acc
    cases l with
    | nil => simp [splitAux]
    | cons c rest => simp [splitAux]
  | succ fuel ih =>
    intro l acc
    cases l with
    | nil => simp [splitAux]
    | cons c rest =>
      rw [splitAux]
      by_cases h : (s :: ss).isPrefixOf (c :: rest) = true
      · simp [h]
      · simp only [h, if_false, Bool.false_eq_true]
        exact ih rest (c :: acc)

theorem splitAux_no_match (s : Char) (ss : List Char) :
    ∀ (fuel : Nat) (l acc : List Char), ¬ ((s :: ss) <:+: l) →
      splitAux s ss fuel l acc = [acc.reverse ++ l] := by
  intro fuel
  induction fuel with
  | zero =>
    intro l acc _
    cases l with
    | nil => simp [splitAux]
    | cons c rest => rfl
  | succ fuel ih =>
    intro l acc h
    cases l with
    | nil => simp [splitAux]
    | cons c rest =>
      rw [splitAux]
      have hpre : ¬ ((s :: ss).isPrefixOf (c :: rest) = true) := by
        intro hp
        exact h (List.IsPrefix.isInfix (List.isPrefixOf_iff_prefix.mp hp))
      simp only [hpre, if_false, Bool.false_eq_true]
      have hrest : ¬ ((s :: ss) <:+: rest) := fun hin => h (List.infix_cons hin)
      rw [ih rest (c :: acc) hrest]
      simp

theorem splitAux_length_two (s : Char) (ss : List Char) :
    ∀ (fuel : Nat) (l acc : List Char), l.length ≤ fuel → (s :: ss) <:+: l →
      2 ≤ (splitAux s ss fuel l acc).length := by
  intro fuel
  induction fuel with
  | zero =>
    intro l acc hlen h
    have hl : l = [] := List.length_eq_zero.mp (Nat.le_zero.mp hlen)
    subst hl
    rw [List.infix_nil] at h
    exact absurd h (by simp)
  | succ fuel ih =>
    intro l acc hlen h
    cases l with
    | nil =>
      rw [List.infix_nil] at h
      exact absurd h (by simp)
    | cons c rest =>
      rw [splitAux]
      by_cases hp : (s :: ss).isPrefixOf (c :: rest) = true
      · simp only [hp, if_true]
        have hne := splitAux_ne_nil s ss fuel (rest.drop ss.length) []
        have h1 : 1 ≤ (splitAux s ss fuel (rest.drop ss.length) []).length :=
          Nat.one_le_iff_ne_zero.mpr (fun h0 => hne (List.length_eq_zero.mp h0))
        simp only [List.length_cons]
        omega
      · simp only [hp, if_false, Bool.false_eq_true]
        have hin : (s :: ss) <:+: rest := by
          rcases List.infix_cons_iff.mp h with hl | hr
          · exact absurd (List.isPrefixOf_iff_prefix.mpr hl) hp
          · exact hr
        have hlen2 : rest.length ≤ fuel := by
          simp only [List.length_cons] at hlen
          omega
        exact ih rest (c :: acc) hlen2 hin

theorem jsSplit_no_match (content tok : String) (h : ¬ (tok.data <:+: content.data)) :
    jsSplit content tok = [content] := by
  have hne : tok.data ≠ [] := by
    intro h0
    exact h (h0 ▸ List.nil_infix)
  unfold jsSplit
  have hemp : tok.data.isEmpty = false := by
    cases htok : tok.data with
    | nil => exact absurd htok hne
    | cons a l => simp
  rw [hemp]
  simp only [Bool.false_eq_true, if_false]
  unfold listSplitOn
  cases htok : tok.data with
  | nil => exact absurd htok hne
  | cons a l =>
    rw [htok] at h
    show List.map String.mk (splitAux a l content.data.length content.data []) = [content]
    rw [splitAux_no_match a l content.data.length content.data [] h]
    simp only [List.reverse_nil, List.nil_append, List.map_cons, List.map_nil]

theorem jsSplit_length_two (content tok : String) (hne : tok.data ≠ [])
    (hin : tok.data <:+: content.data) : 2 ≤ (jsSplit content tok).length := by
  unfold jsSplit
  have hemp : tok.data.isEmpty = false := by
    cases htok : tok.data with
    | nil => exact absurd htok hne
    | cons a l => simp
  rw [hemp]
  simp only [Bool.false_eq_true, if_false, List.length_map]
  unfold listSplitOn
  cases htok : tok.data with
  | nil => exact absurd htok hne
  | cons a l =>
    rw [htok] at hin
    show 2 ≤ (splitAux a l content.data.length content.data []).length
    exact splitAux_length_two a l content.data.length content.data []
      (Nat.le_refl _) hin

theorem firstIndexOf_none_iff (tok : List Char) :
    ∀ l : List Char, firstIndexOf tok l = none ↔ ¬ (tok <:+: l) := by
  intro l
  induction l with
  | nil =>
    rw [firstIndexOf]
    by_cases h : tok.isEmpty = true
    · have : tok = [] := by
        cases tok with
        | nil => rfl
        | cons a l => simp at h
      subst this
      simp
    · have : tok ≠ [] := by
        intro h0
        subst h0
        simp at h
      simp only [h, if_false, Bool.false_eq_true, List.infix_nil]
      simp [this]
  | cons c rest ih =>
    rw [firstIndexOf]
    by_cases hp : tok.isPrefixOf (c :: rest) = true
    · simp only [hp, if_true]
      constructor
      · intro h; exact absurd h (by simp)
      · intro h
        exact absurd (List.IsPrefix.isInfix (List.isPrefixOf_iff_prefix.mp hp)) h
    · simp only [hp, if_false, Bool.false_eq_true]
      constructor
      · intro h hin
        have : firstIndexOf tok rest = none := by
          cases hf : firstIndexOf tok rest with
          | none => rfl
          | some i => rw [hf] at h; simp at h
        rcases List.infix_cons_iff.mp hin with hl | hr
        · exact hp (List.isPrefixOf_iff_prefix.mpr hl)
        · exact (ih.mp this) hr
      · intro h
        have hrest : ¬ (tok <:+: rest) := fun hin => h (List.infix_cons hin)
        rw [ih.mpr hrest]
        rfl

theorem firstIndexOf_some_infix (tok l : List Char) (i : Nat)
    (h : firstIndexOf tok l = some i) : tok <:+: l := by
  by_contra hin
  rw [(firstIndexOf_none_iff tok l).mpr hin] at h
  exact absurd h (by simp)

/-! ## Lemmas about the find_any token choice -/

theorem chooseAux_cons (content t1 : String) (rest : List String)
    (best : Option (String × Nat)) :
    chooseAux content (t1 :: rest) best =
      match firstIndexOf t1.data content.data, best with
      | none, _ => chooseAux content rest best
      | some i, none => chooseAux content rest (some (t1, i))
      | some i, some (t0, i0) =>
        if i < i0 then chooseAux content rest (some (t1, i))
        else chooseAux content rest (some (t0, i0)) := rfl

theorem chooseAux_cons_none (content t1 : String) (rest : List String)
    (best : Option (String × Nat)) (hf : firstIndexOf t1.data content.data = none) :
    chooseAux content (t1 :: rest) best = chooseAux content rest best := by
  cases best with
  | none => rw [chooseAux_cons, hf]
  | some b =>
    obtain ⟨t0, i0⟩ := b
    rw [chooseAux_cons, hf]

theorem chooseAux_cons_some_none (content t1 : String) (rest : List String) (i2 : Nat)
    (hf : firstIndexOf t1.data content.data = some i2) :
    chooseAux content (t1 :: rest) none = chooseAux content rest (some (t1, i2)) := by
  rw [chooseAux_cons, hf]

theorem chooseAux_cons_some_some (content t1 : String) (rest : List String)
    (t0 : String) (i0 i2 : Nat) (hf : firstIndexOf t1.data content.data = some i2) :
    chooseAux content (t1 :: rest) (some (t0, i0)) =
      if i2 < i0 then chooseAux content rest (some (t1, i2))
      else chooseAux content rest (some (t0, i0)) := by
  rw [chooseAux_cons, hf]

theorem chooseAux_some_ne_none (content : String) :
    ∀ (tokens : List String) (b : String × Nat),
      chooseAux content tokens (some b) ≠ none := by
  intro tokens
  induction tokens with
  | nil => intro b; simp [chooseAux]
  | cons t1 rest ih =>
    intro b
    cases hf : firstIndexOf t1.data content.data with
    | none =>
      rw [chooseAux_cons_none content t1 rest (some b) hf]
      exact ih b
    | some i2 =>
      obtain ⟨t0, i0⟩ := b
      rw [chooseAux_cons_some_some content t1 rest t0 i0 i2 hf]
      by_cases hlt : i2 < i0
      · rw [if_pos hlt]; exact ih (t1, i2)
      · rw [if_neg hlt]; exact ih (t0, i0)

theorem chooseAux_none_iff (content : String) :
    ∀ tokens : List String,
      chooseAux content tokens none = none ↔
        ∀ t ∈ tokens, firstIndexOf t.data content.data = none := by
  intro tokens
  induction tokens with
  | nil => simp [chooseAux]
  | cons t1 rest ih =>
    cases hf : firstIndexOf t1.data content.data with
    | none =>
      rw [chooseAux_cons_none content t1 rest none hf, ih]
      constructor
      · intro h t ht
        rcases List.mem_cons.mp ht with he | hm
        · subst he; exact hf
        · exact h t hm
      · intro h t ht
        exact h t (List.mem_cons_of_mem _ ht)
    | some i2 =>
      rw [chooseAux_cons_some_none content t1 rest i2 hf]
      constructor
      · intro h
        exact absurd h (chooseAux_some_ne_none content rest (t1, i2))
      · intro h
        have hcontra := h t1 (List.mem_cons_self _ _)
        rw [hf] at hcontra
        exact Option.noConfusion hcontra

theorem chooseAux_some_spec (content : String) :
    ∀ (tokens : List String) (t0 : String) (i0 : Nat) (t : String) (i : Nat),
      chooseAux content tokens (some (t0, i0)) = some (t, i) →
      (t = t0 ∧ i = i0
        ∧ ∀ t2 ∈ tokens, ∀ j, firstIndexOf t2.data content.data = some j → i ≤ j)
      ∨ (∃ pre post, tokens = pre ++ t :: post
          ∧ firstIndexOf t.data content.data = some i ∧ i < i0
          ∧ (∀ t2 ∈ pre, ∀ j, firstIndexOf t2.data content.data = some j → i < j)
          ∧ (∀ t2 ∈ post, ∀ j, firstIndexOf t2.data content.data = some j → i ≤ j)) := by
  intro tokens
  induction tokens with
  | nil =>
    intro t0 i0 t i h
    rw [chooseAux] at h
    have h1 : (t0, i0) = (t, i) := Option.some.inj h
    left
    refine ⟨(congrArg Prod.fst h1).symm, (congrArg Prod.snd h1).symm, ?_⟩
    intro t2 ht2
    exact absurd ht2 (List.not_mem_nil t2)
  | cons t1 rest ih =>
    intro t0 i0 t i h
    cases hf : firstIndexOf t1.data content.data with
    | none =>
      rw [chooseAux_cons_none content t1 rest (some (t0, i0)) hf] at h
      rcases ih t0 i0 t i h with ⟨ht, hi, hall⟩ | ⟨pre, post, heq, hfi, hlt, hpre, hpost⟩
      · left
        refine ⟨ht, hi, ?_⟩
        intro t2 ht2 j hj
        rcases List.mem_cons.mp ht2 with he | hm
        · subst he; rw [hf] at hj; exact Option.noConfusion hj
        · exact hall t2 hm j hj
      · right
        refine ⟨t1 :: pre, post, by rw [heq, List.cons_append], hfi, hlt, ?_, hpost⟩
        intro t2 ht2 j hj
        rcases List.mem_cons.mp ht2 with he | hm
        · subst he; rw [hf] at hj; exact Option.noConfusion hj
        · exact hpre t2 hm j hj
    | some i2 =>
      rw [chooseAux_cons_some_some content t1 rest t0 i0 i2 hf] at h
      by_cases hlt2 : i2 < i0
      · rw [if_pos hlt2] at h
        rcases ih t1 i2 t i h with ⟨ht, hi, hall⟩ | ⟨pre, post, heq, hfi, hlt, hpre, hpost⟩
        · subst ht; subst hi
          right
          exact ⟨[], rest, rfl, hf, hlt2,
            fun t2 ht2 => absurd ht2 (List.not_mem_nil t2), hall⟩
        · right
          refine ⟨t1 :: pre, post, by rw [heq, List.cons_append], hfi,
            Nat.lt_trans hlt hlt2, ?_, hpost⟩
          intro t2 ht2 j hj
          rcases List.mem_cons.mp ht2 with he | hm
          · subst he
            rw [hf] at hj
            have hij : i2 = j := Option.some.inj hj
            omega
          · exact hpre t2 hm j hj
      · rw [if_neg hlt2] at h
        rcases ih t0 i0 t i h with ⟨ht, hi, hall⟩ | ⟨pre, post, heq, hfi, hlt, hpre, hpost⟩
        · left
          refine ⟨ht, hi, ?_⟩
          intro t2 ht2 j hj
          rcases List.mem_cons.mp ht2 with he | hm
          · subst he
            rw [hf] at hj
            have hij : i2 = j := Option.some.inj hj
            omega
          · exact hall t2 hm j hj
        · right
          refine ⟨t1 :: pre, post, by rw [heq, List.cons_append], hfi, hlt, ?_, hpost⟩
          intro t2 ht2 j hj
          rcases List.mem_cons.mp ht2 with he | hm
          · subst he
            rw [hf] at hj
            have hij : i2 = j := Option.some.inj hj
            omega
          · exact hpre t2 hm j hj

theorem chooseToken_spec (content : String) (tokens : List String) (t : String) (i : Nat)
    (h : chooseToken content tokens = some (t, i)) :
    ∃ pre post, tokens = pre ++ t :: post
      ∧ firstIndexOf t.data content.data = some i
      ∧ (∀ t2 ∈ pre, ∀ j, firstIndexOf t2.data content.data = some j → i < j)
      ∧ (∀ t2 ∈ post, ∀ j, firstIndexOf t2.data content.data = some j → i ≤ j) := by
  induction tokens with
  | nil =>
    rw [chooseToken, chooseAux] at h
    exact absurd h (by simp)
  | cons t1 rest ih =>
    have h2 : chooseAux content (t1 :: rest) none = some (t, i) := h
    cases hf : firstIndexOf t1.data content.data with
    | none =>
      rw [chooseAux_cons_none content t1 rest none hf] at h2
      obtain ⟨pre, post, heq, hfi, hpre, hpost⟩ := ih h2
      refine ⟨t1 :: pre, post, by rw [heq, List.cons_append], hfi, ?_, hpost⟩
      intro t2 ht2 j hj
      rcases List.mem_cons.mp ht2 with he | hm
      · subst he; rw [hf] at hj; exact Option.noConfusion hj
      · exact hpre t2 hm j hj
    | some i2 =>
      rw [chooseAux_cons_some_none content t1 rest i2 hf] at h2
      rcases chooseAux_some_spec content rest t1 i2 t i h2 with
        ⟨ht, hi, hall⟩ | ⟨pre, post, heq, hfi, hlt, hpre, hpost⟩
      · subst ht; subst hi
        exact ⟨[], rest, rfl, hf,
          fun t2 ht2 => absurd ht2 (List.not_mem_nil t2), hall⟩
      · refine ⟨t1 :: pre, post, by rw [heq, List.cons_append], hfi, ?_, hpost⟩
        intro t2 ht2 j hj
        rcases List.mem_cons.mp ht2 with he | hm
        · subst he
          rw [hf] at hj
          have hij : i2 = j := Option.some.inj hj
          omega
        · exact hpre t2 hm j hj

theorem chooseToken_isSome (content : String) (tokens : List String)
    (h : ∃ t ∈ tokens, firstIndexOf t.data content.data ≠ none) :
    ∃ t i, chooseToken content tokens = some (t, i) := by
  cases hc : chooseToken content tokens with
  | none =>
    obtain ⟨t, hmem, hne⟩ := h
    exact absurd ((chooseAux_none_iff content tokens).mp hc t hmem) hne
  | some ti =>
    exact ⟨ti.1, ti.2, rfl⟩

/-! ## Lemmas about rule application -/

theorem applyRule_find_any_eq (content rep : String) (rawTokens : List String)
    (tok : String) (i : Nat)
    (hchoose : chooseToken content ((rawTokens.map jsTrim).filter (fun t => !t.data.isEmpty))
      = some (tok, i)) :
    applyRule content { find := none, find_any := some rawTokens, replace := some rep }
      = .ok (String.intercalate rep (jsSplit content tok), true) := by
  obtain ⟨pre, post, heq, hfi, hpre, hpost⟩ := chooseToken_spec content _ tok i hchoose
  have hmem : tok ∈ (rawTokens.map jsTrim).filter (fun t => !t.data.isEmpty) := by
    rw [heq]
    exact List.mem_append_right _ (List.mem_cons_self _ _)
  have htokne : tok.data ≠ [] := by
    have hflt := (List.mem_filter.mp hmem).2
    intro h0
    rw [h0] at hflt
    simp at hflt
  have hinf : tok.data <:+: content.data := firstIndexOf_some_infix _ _ _ hfi
  have hlen : 2 ≤ (jsSplit content tok).length := jsSplit_length_two content tok htokne hinf
  have hne : ¬ (((rawTokens.map jsTrim).filter (fun t => !t.data.isEmpty)).length = 0) := by
    rw [heq]
    simp
  show (if ((rawTokens.map jsTrim).filter (fun t => !t.data.isEmpty)).length = 0 then
      (.error "SafeReplace replacements require non-empty find_any strings."
        : Except String (String × Bool))
    else
      match chooseToken content ((rawTokens.map jsTrim).filter (fun t => !t.data.isEmpty)) with
      | none => .ok (content, false)
      | some (tok2, _) =>
        .ok (String.intercalate rep (jsSplit content tok2),
          decide (1 < (jsSplit content tok2).length)))
    = .ok (String.intercalate rep (jsSplit content tok), true)
  rw [if_neg hne, hchoose]
  show Except.ok (String.intercalate rep (jsSplit content tok),
      decide (1 < (jsSplit content tok).length))
    = .ok (String.intercalate rep (jsSplit content tok), true)
  rw [decide_eq_true (by omega : 1 < (jsSplit content tok).length)]

theorem applyRule_find_miss (content rep f : String) (r : ReplacementRule)
    (hfind : r.find = some f) (hrep : r.replace = some rep)
    (hmiss : ¬ (f.data <:+: content.data)) :
    applyRule content r = .ok (content, false) := by
  obtain ⟨rfind, rany, rrep⟩ := r
  have hf2 : rfind = some f := hfind
  have hr2 : rrep = some rep := hrep
  subst hf2
  subst hr2
  show (if (jsSplit content f).length = 1 then (.ok (content, false) : Except String (String × Bool))
    else .ok (String.intercalate rep (jsSplit content f), decide (1 < (jsSplit content f).length)))
    = .ok (content, false)
  rw [jsSplit_no_match content f hmiss]
  simp

/-- Helper: a directive entry whose rule applications return the original
content emits no candidate file (the emit guard tests modified AND a
content change). -/
theorem processEntry_ok_none (ns : List String) (sfs : List ScopeFile)
    (entry : ReplaceEntry) (p : String) (scopeFile : ScopeFile)
    (rules : List ReplacementRule) (m : Bool)
    (hpath : entry.path = some p)
    (hesc : jsStartsWith (posixNormalize (stripDotSlash p)) "../" = false)
    (hscope : isWithinScope ns (posixNormalize (stripDotSlash p)) = true)
    (hlook : scopeLookup sfs (posixNormalize (stripDotSlash p)) = some scopeFile)
    (hrules : entry.replacements = some rules)
    (happ : applyRules rules scopeFile.content false = .ok (scopeFile.content, m)) :
    processEntry ns sfs entry = .ok none := by
  obtain ⟨epath, erepl, epreset⟩ := entry
  have hp2 : epath = some p := hpath
  have hr2 : erepl = some rules := hrules
  subst hp2
  subst hr2
  show (if jsStartsWith (posixNormalize (stripDotSlash p)) "../" then
      (Except.error ("SafeReplace path escapes repository: " ++ p)
        : Except String (Option ModelFileEntry))
    else if !(isWithinScope ns (posixNormalize (stripDotSlash p))) then
      Except.error ("SafeReplace path outside scope: " ++ p)
    else
      match scopeLookup sfs (posixNormalize (stripDotSlash p)) with
      | none => Except.error ("SafeReplace path not found in scope files: " ++ p)
      | some scopeFile2 =>
        if rules.length = 0 then Except.ok none
        else
          match applyRules rules scopeFile2.content false with
          | Except.error e => Except.error e
          | Except.ok (content2, modified) =>
            if modified && !(content2 == scopeFile2.content) then
              Except.ok (some { path := posixNormalize (stripDotSlash p),
                                contents_base64 := base64Encode (utf8Bytes content2) })
            else Except.ok none)
    = Except.ok none
  rw [hesc, hscope, hlook]
  simp only [Bool.not_true, Bool.false_eq_true, if_false]
  by_cases hlen : rules.length = 0
  · simp [hlen]
  · simp only [hlen, if_false]
    rw [happ]
    simp

/-- Claim C6: for every find_any rule applied to content in which at
least one listed token occurs, exactly the listed token whose first
occurrence has the lowest character offset in the current content is
substituted — all of its occurrences, via split and rejoin — and the
remaining listed tokens are ignored for that rule, regardless of their
position in the list. -/
theorem C6_find_any_lowest_offset_wins (content rep : String) (r : ReplacementRule)
    (rawTokens tokenList : List String)
    (hfind : r.find = none) (hany : r.find_any = some rawTokens)
    (hrep : r.replace = some rep)
    (htl : tokenList = (rawTokens.map jsTrim).filter (fun t => !t.data.isEmpty))
    (hocc : ∃ t ∈ tokenList, firstIndexOf t.data content.data ≠ none) :
    ∃ tok i, tok ∈ tokenList ∧ firstIndexOf tok.data content.data = some i
      ∧ (∀ t2 ∈ tokenList, ∀ j, firstIndexOf t2.data content.data = some j → i ≤ j)
      ∧ applyRule content r
          = .ok (String.intercalate rep (jsSplit content tok), true) := by
  subst htl
  obtain ⟨tok, i, hchoose⟩ := chooseToken_isSome content _ hocc
  obtain ⟨pre, post, heq, hfi, hpre, hpost⟩ := chooseToken_spec content _ tok i hchoose
  have hr : r = { find := none, find_any := some rawTokens, replace := some rep } := by
    obtain ⟨rfind, rany, rrep⟩ := r
    have h1 : rfind = none := hfind
    have h2 : rany = some rawTokens := hany
    have h3 : rrep = some rep := hrep
    rw [h1, h2, h3]
  refine ⟨tok, i, ?_, hfi, ?_, ?_⟩
  · rw [heq]
    exact List.mem_append_right _ (List.mem_cons_self _ _)
  · intro t2 ht2 j hj
    rw [heq] at ht2
    rcases List.mem_append.mp ht2 with hm | hm
    · exact Nat.le_of_lt (hpre t2 hm j hj)
    · rcases List.mem_cons.mp hm with he | hm2
      · subst he
        rw [hfi] at hj
        exact Nat.le_of_eq (Option.some.inj hj)
      · exact hpost t2 hm2 j hj
  · rw [hr]
    exact applyRule_find_any_eq content rep rawTokens tok i hchoose

/-- Witness for C6 at the tie-break example of the specification: content
a-orange-500 b-pink-500 with tokens [pink-500, orange-500]. -/
theorem C6_find_any_lowest_offset_wins_witness :
    ∃ tok i, tok ∈ (["pink-500", "orange-500"] : List String)
      ∧ firstIndexOf tok.data "a-orange-500 b-pink-500".data = some i
      ∧ (∀ t2 ∈ (["pink-500", "orange-500"] : List String), ∀ j,
          firstIndexOf t2.data "a-orange-500 b-pink-500".data = some j → i ≤ j)
      ∧ applyRule "a-orange-500 b-pink-500"
          { find := none, find_any := some ["pink-500", "orange-500"],
            replace := some "purple-500" }
          = .ok (String.intercalate "purple-500"
              (jsSplit "a-orange-500 b-pink-500" tok), true) :=
  C6_find_any_lowest_offset_wins "a-orange-500 b-pink-500" "purple-500"
    { find := none, find_any := some ["pink-500", "orange-500"],
      replace := some "purple-500" }
    ["pink-500", "orange-500"] ["pink-500", "orange-500"]
    rfl rfl rfl (by decide) (by decide)

/-- Claim C10: if two or more find_any tokens first occur at the same
lowest offset in the current content, the token appearing earliest in
the find_any list is the one substituted; the choice is deterministic:
the chosen token is the first listed token whose offset is strictly
below every earlier listed token's offset and at most every later
one's. -/
theorem C10_find_any_tie_earliest_listed_wins (content rep : String) (r : ReplacementRule)
    (rawTokens tokenList : List String)
    (hfind : r.find = none) (hany : r.find_any = some rawTokens)
    (hrep : r.replace = some rep)
    (htl : tokenList = (rawTokens.map jsTrim).filter (fun t => !t.data.isEmpty))
    (hocc : ∃ t ∈ tokenList, firstIndexOf t.data content.data ≠ none) :
    ∃ tok i pre post, tokenList = pre ++ tok :: post
      ∧ firstIndexOf tok.data content.data = some i
      ∧ (∀ t2 ∈ pre, ∀ j, firstIndexOf t2.data content.data = some j → i < j)
      ∧ (∀ t2 ∈ post, ∀ j, firstIndexOf t2.data content.data = some j → i ≤ j)
      ∧ applyRule content r
          = .ok (String.intercalate rep (jsSplit content tok), true) := by
  subst htl
  obtain ⟨tok, i, hchoose⟩ := chooseToken_isSome content _ hocc
  obtain ⟨pre, post, heq, hfi, hpre, hpost⟩ := chooseToken_spec content _ tok i hchoose
  have hr : r = { find := none, find_any := some rawTokens, replace := some rep } := by
    obtain ⟨rfind, rany, rrep⟩ := r
    have h1 : rfind = none := hfind
    have h2 : rany = some rawTokens := hany
    have h3 : rrep = some rep := hrep
    rw [h1, h2, h3]
  refine ⟨tok, i, pre, post, heq, hfi, hpre, hpost, ?_⟩
  rw [hr]
  exact applyRule_find_any_eq content rep rawTokens tok i hchoose

/-- Witness for C10 at a genuine tie: in content zab both listed tokens a
and ab first occur at offset 1, and the earlier listed token a wins. -/
theorem C10_find_any_tie_earliest_listed_wins_witness :
    ∃ tok i pre post, (["a", "ab"] : List String) = pre ++ tok :: post
      ∧ firstIndexOf tok.data "zab".data = some i
      ∧ (∀ t2 ∈ pre, ∀ j, firstIndexOf t2.data "zab".data = some j → i < j)
      ∧ (∀ t2 ∈ post, ∀ j, firstIndexOf t2.data "zab".data = some j → i ≤ j)
      ∧ applyRule "zab"
          { find := none, find_any := some ["a", "ab"], replace := some "X" }
          = .ok (String.intercalate "X" (jsSplit "zab" tok), true) :=
  C10_find_any_tie_earliest_listed_wins "zab" "X"
    { find := none, find_any := some ["a", "ab"], replace := some "X" }
    ["a", "ab"] ["a", "ab"] rfl rfl rfl (by decide) (by decide)

/-- Claim C7: a literal find rule whose token does not occur in the
current content raises no error and leaves the content byte-identical,
processing continues with the next rule, and a directive whose rules
leave the content equal to the original emits no CandidateFile. -/
theorem C7_literal_find_miss_never_errors (content rep f : String) (r : ReplacementRule)
    (hfind : r.find = some f) (hrep : r.replace = some rep)
    (hmiss : ¬ (f.data <:+: content.data)) :
    applyRule content r = .ok (content, false)
    ∧ (∀ (rules : List ReplacementRule) (m : Bool),
        applyRules (r :: rules) content m = applyRules rules content m)
    ∧ (∀ (normalizedScope : List String) (scopeFiles : List ScopeFile)
        (entry : ReplaceEntry) (p : String) (scopeFile : ScopeFile)
        (rules : List ReplacementRule) (m : Bool),
        entry.path = some p →
        jsStartsWith (posixNormalize (stripDotSlash p)) "../" = false →
        isWithinScope normalizedScope (posixNormalize (stripDotSlash p)) = true →
        scopeLookup scopeFiles (posixNormalize (stripDotSlash p)) = some scopeFile →
        entry.replacements = some rules →
        applyRules rules scopeFile.content false = .ok (scopeFile.content, m) →
        processEntry normalizedScope scopeFiles entry = .ok none) := by
  have h1 : applyRule content r = .ok (content, false) :=
    applyRule_find_miss content rep f r hfind hrep hmiss
  refine ⟨h1, ?_, ?_⟩
  · intro rules m
    rw [applyRules, h1]
    show applyRules rules content (m || false) = applyRules rules content m
    rw [Bool.or_false]
  · intro ns sfs entry p scopeFile rules m hpath hesc hscope hlook hrules happ
    exact processEntry_ok_none ns sfs entry p scopeFile rules m
      hpath hesc hscope hlook hrules happ

/-- Witness for C7: token pink-500 does not occur in text-blue-500; the
rule is a no-op and the whole directive emits no candidate file. -/
theorem C7_literal_find_miss_never_errors_witness :
    applyRule "text-blue-500"
      { find := some "pink-500", replace := some "purple-500" }
      = .ok ("text-blue-500", false)
    ∧ processEntry ["f.ts"] [{ path := "f.ts", content := "text-blue-500", sha := "s" }]
        { path := some "f.ts",
          replacements := some [{ find := some "pink-500", replace := some "purple-500" }] }
        = .ok none := by
  have hmiss : ¬ (("pink-500" : String).data <:+: ("text-blue-500" : String).data) := by
    decide
  have h := C7_literal_find_miss_never_errors "text-blue-500" "purple-500" "pink-500"
    { find := some "pink-500", replace := some "purple-500" } rfl rfl hmiss
  refine ⟨h.1, ?_⟩
  exact h.2.2 ["f.ts"] [{ path := "f.ts", content := "text-blue-500", sha := "s" }]
    { path := some "f.ts",
      replacements := some [{ find := some "pink-500", replace := some "purple-500" }] }
    "f.ts" { path := "f.ts", content := "text-blue-500", sha := "s" }
    [{ find := some "pink-500", replace := some "purple-500" }] false
    rfl (by decide) (by decide) (by decide) rfl
    (by rw [applyRules, h.1]; rfl)

/-! ## Claim C1: the shared containment predicate -/

theorem jsStartsWith_refl (s : String) : jsStartsWith s s = true :=
  List.isPrefixOf_iff_prefix.mpr (List.prefix_refl s.data)

theorem scopeEntryAdmits_iff (e path : String) :
    scopeEntryAdmits e path = true ↔
      ((path == e || (jsEndsWith e "/" && jsStartsWith path e && !(path == e))) = true
        ∨ (jsEndsWith e "/" = false ∧ jsStartsWith path (e ++ "/") = true)) := by
  unfold scopeEntryAdmits
  by_cases hd : jsEndsWith e "/" = true
  · rw [if_pos hd, hd]
    by_cases he : path = e
    · subst he
      simp [jsStartsWith_refl]
    · have hbe : (path == e) = false := by simp [he]
      simp [hbe]
  · have hd2 : jsEndsWith e "/" = false := by
      cases hb : jsEndsWith e "/" with
      | false => rfl
      | true => exact absurd hb hd
    rw [if_neg hd, hd2]
    simp

/-- Claim C1 (amended): the containment predicate shared by SafeReplace
and the generated-edit validator accepts a path iff the predicate the
specification describes accepts it (exact match, or proper descendant of
a directory-marked entry) or the path is a descendant of a file-marked
(non-directory) scope entry: the code additionally admits proper
descendants of file entries via startsWith of entry plus "/". -/
theorem C1_containment_characterization (scope : List String) (path : String) :
    isWithinScope scope path = true ↔
      (inScopeClaim scope path = true
        ∨ ∃ e ∈ scope, jsEndsWith e "/" = false ∧ jsStartsWith path (e ++ "/") = true) := by
  unfold isWithinScope inScopeClaim
  rw [List.any_eq_true]
  constructor
  · rintro ⟨e, hmem, hadm⟩
    rcases (scopeEntryAdmits_iff e path).mp hadm with h1 | h2
    · exact Or.inl (List.any_eq_true.mpr ⟨e, hmem, h1⟩)
    · exact Or.inr ⟨e, hmem, h2⟩
  · rintro (h1 | ⟨e, hmem, h2⟩)
    · obtain ⟨e, hmem, hp⟩ := List.any_eq_true.mp h1
      exact ⟨e, hmem, (scopeEntryAdmits_iff e path).mpr (Or.inl hp)⟩
    · exact ⟨e, hmem, (scopeEntryAdmits_iff e path).mpr (Or.inr h2)⟩

/-- Claim C1 counterexample: with the file (non-directory) scope entry
f.ts, the proper descendant f.ts/x is accepted by the code predicate but
is not accepted by the predicate the claim describes. -/
theorem C1_containment_counterexample :
    isWithinScope ["f.ts"] "f.ts/x" = true
    ∧ inScopeClaim ["f.ts"] "f.ts/x" = false := by
  decide

/-! ## Claim C2: scope entries after parsing -/

/-- Claim C2 (code bug): the parent-traversal guard inside parseTicket
tests only for a leading "../", which the normalized entry ".." does not
have, so a scope entry consisting solely of ".." survives parsing as a
pure traversal component, violating the claimed invariant; an entry
"../x" is rejected as described. -/
theorem C2_dotdot_scope_entry_survives :
    parseTicketScope [".."] = Except.ok [".."]
    ∧ hasDotDotComponent ".." = true
    ∧ normalizeScopeEntry "../x"
        = Except.error "Scope path escapes repository: ../x" := by
  exact ⟨rfl, rfl, rfl⟩

/-! ## Claim C3: base64 decoding in the validator -/

/-- Claim C3 (code bug): Buffer.from(str, base64) never throws for a
string input — node's decoder is forgiving — so a contents_base64 that
is not valid base64 is not rejected as a decoding failure: the invalid
string aGk? decodes to hi and yields a CandidateFile. -/
theorem C3_invalid_base64_not_rejected :
    isValidBase64 "aGk?" = false
    ∧ validateModelFiles [{ path := "f.ts", contents_base64 := "aGk?" }] ["f.ts"]
        = Except.ok [{ path := "f.ts", contents := "hi", base64 := "aGk?" }] := by
  exact ⟨rfl, rfl⟩

/-! ## Claim C4: the Sanity Rails size gate -/

theorem utf8Len_replicate_a : ∀ n : Nat, utf8Len (String.mk (List.replicate n 'a')) = n := by
  intro n
  induction n with
  | zero => rfl
  | succ n ih =>
    have ih2 : (List.map charUtf8Bytes (List.replicate n 'a')).flatten.length = n := ih
    show (List.map charUtf8Bytes (List.replicate (n + 1) 'a')).flatten.length = n + 1
    rw [List.replicate_succ, List.map_cons, List.flatten_cons, List.length_append, ih2]
    show 1 + n = n + 1
    omega

/-- Claim C4 (amended): the Sanity Rails size gate passes iff the decoded
UTF-8 byte length lies in (0, 200000] — the literal 200000 used there,
not 200 KiB = 204800 — and any file violating the gate makes
runSanityRails raise the SanityRails error. -/
theorem C4_sanity_size_gate :
    (∀ text : String,
      sanitySizeOk text = true ↔ (1 ≤ utf8Len text ∧ utf8Len text ≤ 200000))
    ∧ (∀ (files : List CandidateFile) (f : CandidateFile), f ∈ files →
        sanitySizeOk f.contents = false →
        runSanityRails files = Except.error "SanityRails failure") := by
  constructor
  · intro text
    unfold sanitySizeOk
    by_cases h : utf8Len text = 0 ∨ 200000 < utf8Len text
    · rw [if_pos h]
      constructor
      · intro hf; exact absurd hf (by simp)
      · intro hin; omega
    · rw [if_neg h]
      push_neg at h
      constructor
      · intro _; omega
      · intro _; rfl
  · intro files f hmem hbad
    have hcheck : sanityCheckFile f = false := by
      unfold sanityCheckFile
      rw [hbad]
      simp
    induction files with
    | nil => exact absurd hmem (List.not_mem_nil f)
    | cons g rest ih =>
      rw [runSanityRails]
      by_cases hg : sanityCheckFile g = true
      · rw [if_pos hg]
        rcases List.mem_cons.mp hmem with he | hm
        · subst he; rw [hg] at hcheck; exact absurd hcheck (by simp)
        · exact ih hm
      · rw [if_neg hg]

/-- Witness for C4: the empty content fails the size gate and a file set
containing it makes runSanityRails fail. -/
theorem C4_sanity_size_gate_witness :
    sanitySizeOk "" = false
    ∧ runSanityRails [{ path := "p", contents := "", base64 := "" }]
        = Except.error "SanityRails failure" :=
  ⟨by decide,
    C4_sanity_size_gate.2 [{ path := "p", contents := "", base64 := "" }]
      { path := "p", contents := "", base64 := "" } (by simp) (by decide)⟩

/-- Claim C4 counterexample: a 200001-byte text lies inside the claimed
interval (0, 204800] yet fails the size gate, because the gate compares
against the literal 200000 rather than 200 * 1024 = 204800. -/
theorem C4_size_gate_counterexample :
    sanitySizeOk (String.mk (List.replicate 200001 'a')) = false
    ∧ 1 ≤ utf8Len (String.mk (List.replicate 200001 'a'))
    ∧ utf8Len (String.mk (List.replicate 200001 'a')) ≤ 204800 := by
  have h := utf8Len_replicate_a 200001
  refine ⟨?_, by omega, by omega⟩
  unfold sanitySizeOk
  rw [h]
  norm_num

/-! ## Claim C5: color preset expansion -/

theorem mapExcept_congr_ok {α β : Type} (f : α → Except String β) (g : α → β) :
    ∀ l : List α, (∀ x ∈ l, f x = .ok (g x)) → mapExcept f l = .ok (l.map g) := by
  intro l
  induction l with
  | nil => intro _; rfl
  | cons x xs ih =>
    intro h
    rw [mapExcept, h x (List.mem_cons_self _ _),
      ih (fun y hy => h y (List.mem_cons_of_mem _ hy))]
    rfl

theorem mem_dedupFirstAux (x : String) :
    ∀ (xs seen : List String), x ∈ xs → ¬ x ∈ seen → x ∈ dedupFirstAux seen xs := by
  intro xs
  induction xs with
  | nil => intro seen h _; exact absurd h (List.not_mem_nil x)
  | cons y ys ih =>
    intro seen hmem hns
    rw [dedupFirstAux]
    by_cases hc : seen.contains y = true
    · rw [if_pos hc]
      rcases List.mem_cons.mp hmem with he | hm
      · subst he
        exact absurd (List.mem_of_elem_eq_true hc) hns
      · exact ih seen hm hns
    · rw [if_neg hc]
      rcases List.mem_cons.mp hmem with he | hm
      · subst he; exact List.mem_cons_self _ _
      · by_cases hxy : x = y
        · subst hxy; exact List.mem_cons_self _ _
        · refine List.mem_cons_of_mem _ (ih (y :: seen) hm ?_)
          intro hx
          rcases List.mem_cons.mp hx with he2 | hm2
          · exact hxy he2
          · exact hns hm2

theorem presetShadeStep_ok (kind target rawShade : String)
    (h : COLOR_PRESET_SHADES.contains (jsTrim rawShade) = true) :
    presetShadeStep kind target rawShade = .ok (presetRule kind target (jsTrim rawShade)) := by
  show (if !(COLOR_PRESET_SHADES.contains (jsTrim rawShade)) then
      (.error ("color_preset shades must be within: "
        ++ String.intercalate ", " COLOR_PRESET_SHADES) : Except String ReplacementRule)
    else .ok (presetRule kind target (jsTrim rawShade)))
    = .ok (presetRule kind target (jsTrim rawShade))
  rw [h]
  rfl

theorem presetKindStep_ok (target : String) (shades : List String) (rawKind : String)
    (hkind : COLOR_PRESET_KINDS.contains (jsTrim rawKind) = true)
    (hshades : ∀ s ∈ shades, COLOR_PRESET_SHADES.contains (jsTrim s) = true) :
    presetKindStep target shades rawKind
      = .ok (shades.map (fun s => presetRule (jsTrim rawKind) target (jsTrim s))) := by
  show (if !(COLOR_PRESET_KINDS.contains (jsTrim rawKind)) then
      (.error ("color_preset kind must be one of: "
        ++ String.intercalate ", " COLOR_PRESET_KINDS) : Except String (List ReplacementRule))
    else mapExcept (presetShadeStep (jsTrim rawKind) target) shades)
    = .ok (shades.map (fun s => presetRule (jsTrim rawKind) target (jsTrim s)))
  rw [hkind]
  show mapExcept (presetShadeStep (jsTrim rawKind) target) shades
    = .ok (shades.map (fun s => presetRule (jsTrim rawKind) target (jsTrim s)))
  exact mapExcept_congr_ok _ _ shades
    (fun s hs2 => presetShadeStep_ok (jsTrim rawKind) target s (hshades s hs2))

/-- Claim C5 (amended): for a valid ColorPresetSpec the expansion
produces exactly one rule per (kind, shade) pair, in kind-major order,
each rule mapping every recognized palette name — the target included,
not excluded — through the kind-color-shade template into find_any, and
each replace being the kind-target-shade token; in particular the target
token itself is always a member of find_any. -/
theorem C5_preset_expansion (p : ColorPreset) (target : String)
    (effKinds effShades : List String)
    (htarget : jsTrim (p.target.getD "") = target)
    (hmem : COLOR_PRESET_COLORS.contains target = true)
    (hk : effKinds = (match p.kinds with | some (k :: ks) => k :: ks | _ => ["text"]))
    (hs : effShades = (match p.shades with | some (s :: ss) => s :: ss | _ => ["500"]))
    (hkv : ∀ k ∈ effKinds, COLOR_PRESET_KINDS.contains (jsTrim k) = true)
    (hsv : ∀ s ∈ effShades, COLOR_PRESET_SHADES.contains (jsTrim s) = true) :
    buildColorPresetReplacements (some p)
      = Except.ok ((effKinds.map (fun k =>
          effShades.map (fun s => presetRule (jsTrim k) target (jsTrim s)))).flatten)
    ∧ ∀ k ∈ effKinds, ∀ s ∈ effShades,
        (jsTrim k ++ "-" ++ target ++ "-" ++ jsTrim s)
          ∈ dedupFirst (COLOR_PRESET_COLORS.map
              (fun color => jsTrim k ++ "-" ++ color ++ "-" ++ jsTrim s)) := by
  have hmem2 : target ∈ COLOR_PRESET_COLORS := List.mem_of_elem_eq_true hmem
  have htne : target.data.isEmpty = false := by
    simp only [COLOR_PRESET_COLORS, List.mem_cons, List.not_mem_nil, or_false] at hmem2
    rcases hmem2 with h | h | h | h | h <;> subst h <;> rfl
  constructor
  · have hbody : buildColorPresetReplacements (some p)
        = (if target.data.isEmpty then
            (.error "color_preset requires a target color."
              : Except String (List ReplacementRule))
          else if !(COLOR_PRESET_COLORS.contains target) then
            .error ("color_preset target must be one of: "
              ++ String.intercalate ", " COLOR_PRESET_COLORS)
          else
            match mapExcept (presetKindStep target
                (match p.shades with | some (s :: ss) => s :: ss | _ => ["500"]))
                (match p.kinds with | some (k :: ks) => k :: ks | _ => ["text"]) with
            | .error e => .error e
            | .ok ruleLists => .ok ruleLists.flatten) := by
      rw [← htarget]
      exact rfl
    rw [hbody, htne, hmem]
    simp only [Bool.false_eq_true, if_false, Bool.not_true]
    rw [← hk, ← hs]
    rw [mapExcept_congr_ok (presetKindStep target effShades)
      (fun k => effShades.map (fun s => presetRule (jsTrim k) target (jsTrim s))) effKinds
      (fun k hk2 => presetKindStep_ok target effShades k (hkv k hk2) hsv)]
  · intro k hk2 s hs2
    have hm : (jsTrim k ++ "-" ++ target ++ "-" ++ jsTrim s)
        ∈ COLOR_PRESET_COLORS.map (fun color => jsTrim k ++ "-" ++ color ++ "-" ++ jsTrim s) :=
      List.mem_map.mpr ⟨target, hmem2, rfl⟩
    exact mem_dedupFirstAux _ _ [] hm (List.not_mem_nil _)

/-- Witness for C5 at the preset target red, kinds [bg], shades [600]. -/
theorem C5_preset_expansion_witness :
    buildColorPresetReplacements
        (some { target := some "red", kinds := some ["bg"], shades := some ["600"] })
      = Except.ok
          [{ find := none,
             find_any := some ["bg-red-600", "bg-orange-600", "bg-pink-600",
               "bg-purple-600", "bg-green-600"],
             replace := some "bg-red-600" }]
    ∧ ∀ k ∈ (["bg"] : List String), ∀ s ∈ (["600"] : List String),
        (jsTrim k ++ "-" ++ "red" ++ "-" ++ jsTrim s)
          ∈ dedupFirst (COLOR_PRESET_COLORS.map
              (fun color => jsTrim k ++ "-" ++ color ++ "-" ++ jsTrim s)) :=
  C5_preset_expansion
    { target := some "red", kinds := some ["bg"], shades := some ["600"] }
    "red" ["bg"] ["600"] rfl (by decide) rfl rfl (by decide) (by decide)

/-- Claim C5 counterexample: at the specification's own sample preset the
generated find_any contains the target token text-purple-500, whereas
the claim says every palette name except the target is listed. -/
theorem C5_preset_target_not_excluded :
    buildColorPresetReplacements
        (some { target := some "purple", kinds := some ["text"], shades := some ["500"] })
      = Except.ok
          [{ find := none,
             find_any := some ["text-red-500", "text-orange-500", "text-pink-500",
               "text-purple-500", "text-green-500"],
             replace := some "text-purple-500" }]
    ∧ "text-purple-500" ∈ ["text-red-500", "text-orange-500", "text-pink-500",
        "text-purple-500", "text-green-500"] := by
  exact ⟨rfl, by decide⟩

/-! ## Claim C8: early exit when nothing changed -/

/-- Claim C8: when every SafeReplace directive processes without error
and produces no changed file, safeReplace returns the empty edit set and
the run terminates early and successfully: the outcome is earlyExit, so
sanity rails never run and nothing is handed to the commit collaborator,
for any strictness flag and any generative collaborator. -/
theorem C8_no_change_early_exit (ticket : Ticket) (scopeFiles : List ScopeFile)
    (sr : List ReplaceEntry) (expanded : List ReplaceEntry)
    (produced : List (Option ModelFileEntry))
    (verifyStrict : Bool) (llmFiles : Except String (List CandidateFile))
    (hsr : ticket.safe_replace = some sr)
    (hne : 0 < sr.length)
    (hexp : applyColorPresets sr = .ok expanded)
    (hrun : mapExcept (processEntry (normalizeScopeList ticket.scope) scopeFiles) expanded
        = .ok produced)
    (hnone : produced.filterMap id = []) :
    safeReplace ticket scopeFiles = .ok []
    ∧ runPipeline ticket scopeFiles verifyStrict llmFiles = .ok RunOutcome.earlyExit := by
  have hcollect : collectReplaceFiles ticket scopeFiles = .ok [] := by
    unfold collectReplaceFiles
    rw [hsr]
    show (if sr.length = 0 then
        (Except.error "SafeReplace requires at least one replacement entry."
          : Except String (List ModelFileEntry))
      else
        match applyColorPresets sr with
        | Except.error e => Except.error e
        | Except.ok expanded2 =>
          match mapExcept (processEntry (normalizeScopeList ticket.scope) scopeFiles)
              expanded2 with
          | Except.error e => Except.error e
          | Except.ok produced2 => Except.ok (produced2.filterMap id))
      = Except.ok []
    rw [if_neg (by omega : ¬ sr.length = 0), hexp]
    show (match mapExcept (processEntry (normalizeScopeList ticket.scope) scopeFiles)
        expanded with
      | Except.error e => Except.error e
      | Except.ok produced2 =>
        (Except.ok (produced2.filterMap id) : Except String (List ModelFileEntry)))
      = Except.ok []
    rw [hrun]
    show Except.ok (produced.filterMap id) = Except.ok []
    rw [hnone]
  have hsafe : safeReplace ticket scopeFiles = .ok [] := by
    unfold safeReplace
    rw [hcollect]
    rfl
  refine ⟨hsafe, ?_⟩
  unfold runPipeline
  rw [hsr]
  show (if 0 < sr.length then
      match safeReplace ticket scopeFiles with
      | Except.error e => Except.error e
      | Except.ok modelFiles =>
        if modelFiles.length = 0 then Except.ok RunOutcome.earlyExit
        else railsAndCommit verifyStrict modelFiles
    else
      match llmFiles with
      | Except.error e => Except.error e
      | Except.ok modelFiles => railsAndCommit verifyStrict modelFiles)
    = Except.ok RunOutcome.earlyExit
  rw [if_pos hne, hsafe]
  rfl

/-- Witness for C8: a single literal rule whose token zzz does not occur
in the scope file hello, so the run ends early with no commit. -/
theorem C8_no_change_early_exit_witness :
    safeReplace
        { title := "t", scope := ["f.ts"],
          safe_replace :=
            some [{ path := some "f.ts",
                    replacements := some [{ find := some "zzz", replace := some "x" }] }] }
        [{ path := "f.ts", content := "hello", sha := "s" }]
      = .ok []
    ∧ runPipeline
        { title := "t", scope := ["f.ts"],
          safe_replace :=
            some [{ path := some "f.ts",
                    replacements := some [{ find := some "zzz", replace := some "x" }] }] }
        [{ path := "f.ts", content := "hello", sha := "s" }] true (.ok [])
      = .ok RunOutcome.earlyExit :=
  C8_no_change_early_exit
    { title := "t", scope := ["f.ts"],
      safe_replace :=
        some [{ path := some "f.ts",
                replacements := some [{ find := some "zzz", replace := some "x" }] }] }
    [{ path := "f.ts", content := "hello", sha := "s" }]
    [{ path := some "f.ts",
       replacements := some [{ find := some "zzz", replace := some "x" }] }]
    [{ path := some "f.ts",
       replacements := some [{ find := some "zzz", replace := some "x" }] }]
    [none] true (.ok []) rfl (by decide) rfl rfl rfl

/-! ## Claim C9: SafeReplace output goes through the shared validator -/

/-- Claim C9: every non-empty edit set collected by SafeReplace is passed
through the same shape-level validator validateModelFiles as generated
output, so any bound violation (file count, emptiness, size) aborts with
the identical validator error; in particular more than MAX_FILES changed
files produce the refusing-to-modify error. -/
theorem C9_safe_replace_uses_validator (ticket : Ticket) (scopeFiles : List ScopeFile)
    (files : List ModelFileEntry)
    (hcollect : collectReplaceFiles ticket scopeFiles = .ok files)
    (hne : files ≠ []) :
    safeReplace ticket scopeFiles = validateModelFiles files ticket.scope
    ∧ (MAX_FILES < files.length →
        safeReplace ticket scopeFiles
          = .error ("Refusing to modify more than " ++ toString MAX_FILES ++ " files.")) := by
  have hlen : ¬ files.length = 0 := fun h0 => hne (List.length_eq_zero.mp h0)
  have h1 : safeReplace ticket scopeFiles = validateModelFiles files ticket.scope := by
    unfold safeReplace
    rw [hcollect]
    show (if files.length = 0 then (Except.ok [] : Except String (List CandidateFile))
      else validateModelFiles files ticket.scope) = validateModelFiles files ticket.scope
    rw [if_neg hlen]
  refine ⟨h1, ?_⟩
  intro hbig
  rw [h1]
  unfold validateModelFiles
  rw [if_neg hlen, if_pos hbig]

/-- Witness for C9: the end-to-end pink to purple rewrite produces one
changed file, and safeReplace returns exactly the validator's output on
that collected edit set. -/
theorem C9_safe_replace_uses_validator_witness :
    safeReplace
        { title := "t", scope := ["f.ts"],
          safe_replace :=
            some [{ path := some "f.ts",
                    replacements := some [{ find := some "pink", replace := some "purple" }] }] }
        [{ path := "f.ts", content := "text-pink-500", sha := "s" }]
      = validateModelFiles
          [{ path := "f.ts",
             contents_base64 := base64Encode (utf8Bytes "text-purple-500") }]
          ["f.ts"] :=
  (C9_safe_replace_uses_validator
    { title := "t", scope := ["f.ts"],
      safe_replace :=
        some [{ path := some "f.ts",
                replacements := some [{ find := some "pink", replace := some "purple" }] }] }
    [{ path := "f.ts", content := "text-pink-500", sha := "s" }]
    [{ path := "f.ts", contents_base64 := base64Encode (utf8Bytes "text-purple-500") }]
    rfl (by simp)).1

/-- Witness for C1 at a concrete scope and path. -/
theorem C1_containment_characterization_witness :
    isWithinScope ["src/", "f.ts"] "src/app/page.tsx" = true ↔
      (inScopeClaim ["src/", "f.ts"] "src/app/page.tsx" = true
        ∨ ∃ e ∈ (["src/", "f.ts"] : List String), jsEndsWith e "/" = false
            ∧ jsStartsWith "src/app/page.tsx" (e ++ "/") = true) :=
  C1_containment_characterization ["src/", "f.ts"] "src/app/page.tsx"
